import Mathlib

/-!
Verification development for the `useDelegation` event-delegation registry
(`stimulus-delegation`). Two implementations live in the repository: the
object-mixin one (`src/stimulus-delegation.ts`) and the function-based one;
their registry logic (`delegate` / `undelegate` / `undelegateAll`) is
identical, and their dispatch closures differ only on non-element origins.

JS strings are embedded as `List Char`, the `delegatedEvents` `Map` as an
insertion-ordered association list (matching JS `Map` iteration semantics),
and the set of listeners attached to the root node as a list of
(eventType, listener) pairs with `addEventListener` / `removeEventListener`
semantics. Each call to `delegate` creates a fresh physical-listener closure;
closure identity is modelled by a unique numeric id.
-/

namespace SD

/-- JS strings as character lists. -/
abbrev Str := List Char

/-- A physical-listener closure created by `delegate`: it captures the
selector and the logical handler (identified by a numeric id); `id` models
the closure's object identity. -/
structure Listener where
  id : Nat
  selector : Str
  handlerId : Nat
deriving DecidableEq

/-- Controller state: `delegatedEvents` is the keyed `Map`, `attached` the
(eventType, listener) pairs currently attached to the root element, `owner`
identifies the controller (the `this` bound into handlers), `nextId` supplies
fresh closure identities. -/
structure CtrlState where
  owner : Nat
  delegatedEvents : List (Str × Listener)
  attached : List (Str × Listener)
  nextId : Nat
deriving DecidableEq

/-- `` `${eventType}:${selector}` `` -/
def keyStr (e sel : Str) : Str := e ++ ':' :: sel

/-- `const [eventType] = key.split(':')` — the substring before the first
`':'` (the whole key when it has no `':'`). -/
def keyEventType (k : Str) : Str := k.takeWhile (fun c => c != ':')

/-- `Map.get` on the association list. -/
def lookupKey (k : Str) : List (Str × Listener) → Option Listener
  | [] => none
  | (k', l) :: rest => if k' = k then some l else lookupKey k rest

/-- `Map.set`: replace in place when the key is present (JS `Map` keeps the
original insertion position), append otherwise. -/
def setKey (k : Str) (v : Listener) : List (Str × Listener) → List (Str × Listener)
  | [] => [(k, v)]
  | (k', l) :: rest => if k' = k then (k, v) :: rest else (k', l) :: setKey k v rest

/-- `Map.delete`. -/
def eraseKey (k : Str) : List (Str × Listener) → List (Str × Listener)
  | [] => []
  | (k', l) :: rest => if k' = k then rest else (k', l) :: eraseKey k rest

/-- `root.addEventListener(t, l)`: a (type, callback) pair already attached is
not attached twice; otherwise listeners are appended in attachment order. -/
def addEV (t : Str) (l : Listener) (att : List (Str × Listener)) : List (Str × Listener) :=
  if (t, l) ∈ att then att else att ++ [(t, l)]

/-- `root.removeEventListener(t, l)`: removes the matching (type, callback)
pair if attached, otherwise a no-op. -/
def removeEV (t : Str) (l : Listener) (att : List (Str × Listener)) : List (Str × Listener) :=
  att.erase (t, l)

/-- `delegate(eventType, selector, handler)`: computes the key, detaches the
previously stored listener for that key (using the current call's event type),
stores a fresh closure under the key and attaches it to the root. -/
def delegate (s : CtrlState) (e sel : Str) (h : Nat) : CtrlState :=
  let k := keyStr e sel
  let att1 :=
    match lookupKey k s.delegatedEvents with
    | some old => removeEV e old s.attached
    | none => s.attached
  let l : Listener := ⟨s.nextId, sel, h⟩
  { s with
    delegatedEvents := setKey k l s.delegatedEvents
    attached := addEV e l att1
    nextId := s.nextId + 1 }

/-- `undelegate(eventType, selector)`: detaches and forgets the listener
stored under the key, a no-op when none is stored. -/
def undelegate (s : CtrlState) (e sel : Str) : CtrlState :=
  match lookupKey (keyStr e sel) s.delegatedEvents with
  | some l =>
      { s with
        attached := removeEV e l s.attached
        delegatedEvents := eraseKey (keyStr e sel) s.delegatedEvents }
  | none => s

/-- `undelegateAll()`: for each stored entry, recovers the event type as the
key's prefix before the first `':'` and detaches the listener, then clears
the map. -/
def undelegateAll (s : CtrlState) : CtrlState :=
  { s with
    attached := s.delegatedEvents.foldl (fun att kl => removeEV (keyEventType kl.1) kl.2 att) s.attached
    delegatedEvents := [] }

/-- Fresh controller: empty map, nothing attached. -/
def initState (owner : Nat) : CtrlState := ⟨owner, [], [], 0⟩

/-- One registry operation. -/
inductive Op where
  | del (e sel : Str) (h : Nat)
  | undel (e sel : Str)
  | undelAll
deriving DecidableEq

def applyOp (s : CtrlState) : Op → CtrlState
  | .del e sel h => delegate s e sel h
  | .undel e sel => undelegate s e sel
  | .undelAll => undelegateAll s

def runOps (s : CtrlState) (ops : List Op) : CtrlState := ops.foldl applyOp s

/-- The operation's event type contains no `':'` separator character. -/
def OpColonFree : Op → Prop
  | .del e _ _ => ':' ∉ e
  | .undel e _ => ':' ∉ e
  | .undelAll => True

instance (op : Op) : Decidable (OpColonFree op) :=
  match op with
  | .del e _ _ => inferInstanceAs (Decidable (':' ∉ e))
  | .undel e _ => inferInstanceAs (Decidable (':' ∉ e))
  | .undelAll => inferInstanceAs (Decidable True)

/-! ## The dispatch closures

A DOM node is modelled by an identity and a kind; the position of an event's
origin in the document is modelled by its inclusive ancestor chain (the node
itself first, then its parent, and so on up to the document root). -/

inductive NodeKind where
  | element
  | text
deriving DecidableEq

structure Node where
  id : Nat
  kind : NodeKind
deriving DecidableEq

/-- `element.closest(selector)`: the nearest ancestor-or-self element
satisfying the matching predicate, returned together with its own ancestor
chain (its head is the matched element). -/
def closestFrom (msel : Node → Bool) : List Node → Option (List Node)
  | [] => none
  | n :: rest =>
      match n.kind with
      | .element => if msel n then some (n :: rest) else closestFrom msel rest
      | .text => closestFrom msel rest

/-- `eventTarget.nodeType === Node.ELEMENT_NODE ? eventTarget :
eventTarget.parentElement` — the chain of the element the match starts from:
the origin itself when it is an element, otherwise its parent when the parent
is an element, otherwise none. -/
def toElementChain : List Node → Option (List Node)
  | [] => none
  | n :: rest =>
      match n.kind with
      | .element => some (n :: rest)
      | .text =>
          match rest with
          | [] => none
          | p :: rest' =>
              match p.kind with
              | .element => some (p :: rest')
              | .text => none

/-- `root.contains(target)`: the root is an inclusive ancestor of the target,
i.e. it occurs in the target's inclusive ancestor chain. -/
def containsRoot (rootId : Nat) (tc : List Node) : Bool := tc.any (fun n => n.id = rootId)

/-- The function-based implementation's delegated handler: null-target guard,
text-node resolution via `parentElement`, `closest`, containment check;
returns the element the logical handler is invoked with, or `none` when the
handler is not invoked. The event's origin is `none` for a null target,
otherwise the origin node's inclusive ancestor chain. -/
def runListenerFn (rootId : Nat) (msel : Node → Bool) (origin : Option (List Node)) : Option Node :=
  match origin with
  | none => none
  | some chain =>
      match toElementChain chain with
      | none => none
      | some ec =>
          match closestFrom msel ec with
          | none => none
          | some [] => none
          | some (t :: ts) => if containsRoot rootId (t :: ts) then some t else none

/-- Outcome of the object-mixin implementation's delegated handler: it calls
`(event.target as Element)?.closest(selector)` directly, so a text-node
origin raises a `TypeError` (`closest` is not a function on a text node). -/
inductive MixResult where
  | threw
  | ok (res : Option Node)
deriving DecidableEq

/-- The object-mixin implementation's delegated handler. -/
def runListenerMix (rootId : Nat) (msel : Node → Bool) (origin : Option (List Node)) : MixResult :=
  match origin with
  | none => .ok none
  | some [] => .ok none
  | some (n :: rest) =>
      match n.kind with
      | .text => .threw
      | .element =>
          match closestFrom msel (n :: rest) with
          | none => .ok none
          | some [] => .ok none
          | some (t :: ts) => if containsRoot rootId (t :: ts) then .ok (some t) else .ok none

/-- One logical-handler invocation performed during dispatch: which physical
listener fired, the `this` context the handler was called with, the handler,
and the matched element passed to it (the original event is passed through
unchanged by the closure and is left implicit). -/
structure Invocation where
  listenerId : Nat
  ctx : Nat
  handlerId : Nat
  target : Node
deriving DecidableEq

/-- Dispatching a native event of type `t` to a list of attached listeners:
every listener attached for `t` runs, in attachment order; each one that
passes matching and containment contributes one logical-handler invocation. -/
def dispatchList (owner : Nat) (matchesSel : Str → Node → Bool) (rootId : Nat)
    (att : List (Str × Listener)) (t : Str) (origin : Option (List Node)) : List Invocation :=
  (att.filter (fun p => p.1 == t)).filterMap (fun p =>
    (runListenerFn rootId (matchesSel p.2.selector) origin).map
      (fun tgt => ⟨p.2.id, owner, p.2.handlerId, tgt⟩))

/-- Dispatch against a controller state. -/
def dispatch (matchesSel : Str → Node → Bool) (rootId : Nat) (s : CtrlState)
    (t : Str) (origin : Option (List Node)) : List Invocation :=
  dispatchList s.owner matchesSel rootId s.attached t origin

/-- Well-formedness invariant of a reachable controller state under
colon-free event types: fresh ids bound `nextId`, attached listener ids are
distinct, map keys are distinct, every stored key decodes as
`eventType ++ ':' ++ selector` with a colon-free event type, and the stored
registrations and the attached listeners are in exact correspondence. -/
structure Inv (s : CtrlState) : Prop where
  fresh_att : ∀ p ∈ s.attached, p.2.id < s.nextId
  fresh_map : ∀ p ∈ s.delegatedEvents, p.2.id < s.nextId
  ids_nodup : (s.attached.map (fun p => p.2.id)).Nodup
  keys_nodup : (s.delegatedEvents.map Prod.fst).Nodup
  stored_cf : ∀ p ∈ s.delegatedEvents, ∃ e, ':' ∉ e ∧ p.1 = keyStr e p.2.selector
  att_cf : ∀ p ∈ s.attached, ':' ∉ p.1
  sync_att : ∀ p ∈ s.attached, lookupKey (keyStr p.1 p.2.selector) s.delegatedEvents = some p.2
  sync_map : ∀ p ∈ s.delegatedEvents, (keyEventType p.1, p.2) ∈ s.attached

/-! ## Key encoding lemmas -/

theorem keyStr_inj {e1 s1 e2 s2 : Str} (h1 : ':' ∉ e1) (h2 : ':' ∉ e2)
    (h : keyStr e1 s1 = keyStr e2 s2) : e1 = e2 ∧ s1 = s2 := by
  induction e1 generalizing e2 with
  | nil =>
    cases e2 with
    | nil => simpa [keyStr] using h
    | cons d e2' =>
      simp only [keyStr, List.nil_append, List.cons_append, List.cons.injEq] at h
      exact absurd (h.1 ▸ List.mem_cons_self d e2') h2
  | cons c e1' ih =>
    cases e2 with
    | nil =>
      simp only [keyStr, List.nil_append, List.cons_append, List.cons.injEq] at h
      exact absurd (h.1 ▸ List.mem_cons_self c e1') h1
    | cons d e2' =>
      simp only [keyStr, List.cons_append, List.cons.injEq] at h
      have h1' : ':' ∉ e1' := fun hm => h1 (List.mem_cons_of_mem c hm)
      have h2' : ':' ∉ e2' := fun hm => h2 (List.mem_cons_of_mem d hm)
      obtain ⟨he, hs⟩ := ih h1' h2' h.2
      exact ⟨by rw [h.1, he], hs⟩

theorem keyEventType_keyStr {e : Str} (sel : Str) (h : ':' ∉ e) :
    keyEventType (keyStr e sel) = e := by
  induction e with
  | nil => simp [keyEventType, keyStr]
  | cons c e' ih =>
    have hc : c ≠ ':' := fun hc => h (hc ▸ List.mem_cons_self c e')
    have h' : ':' ∉ e' := fun hm => h (List.mem_cons_of_mem c hm)
    have ih' := ih h'
    simp only [keyStr, List.cons_append, keyEventType] at ih' ⊢
    rw [List.takeWhile_cons_of_pos (by simp [hc]), ih']

/-! ## Association list lemmas -/

theorem lookupKey_eq_none {k : Str} {m : List (Str × Listener)}
    (h : lookupKey k m = none) : ∀ p ∈ m, p.1 ≠ k := by
  induction m with
  | nil => simp
  | cons q rest ih =>
    intro p hp
    obtain ⟨k', l⟩ := q
    by_cases hk : k' = k
    · simp [lookupKey, hk] at h
    · simp only [lookupKey, hk, if_neg, if_false] at h
      rcases List.mem_cons.mp hp with rfl | hp'
      · exact hk
      · exact ih h p hp'

theorem lookupKey_mem {k : Str} {l : Listener} {m : List (Str × Listener)}
    (h : lookupKey k m = some l) : (k, l) ∈ m := by
  induction m with
  | nil => simp [lookupKey] at h
  | cons q rest ih =>
    obtain ⟨k', l'⟩ := q
    by_cases hk : k' = k
    · simp only [lookupKey, if_pos hk, Option.some.injEq] at h
      obtain rfl := hk
      obtain rfl := h
      exact List.mem_cons_self _ _
    · simp only [lookupKey, if_neg hk] at h
      exact List.mem_cons_of_mem _ (ih h)

theorem lookupKey_setKey_self (k : Str) (v : Listener) (m : List (Str × Listener)) :
    lookupKey k (setKey k v m) = some v := by
  induction m with
  | nil => simp [setKey, lookupKey]
  | cons q rest ih =>
    obtain ⟨k', l⟩ := q
    by_cases hk : k' = k
    · simp [setKey, hk, lookupKey]
    · simp [setKey, hk, lookupKey, ih]

theorem lookupKey_setKey_ne {k' k : Str} (hne : k' ≠ k) (v : Listener)
    (m : List (Str × Listener)) : lookupKey k' (setKey k v m) = lookupKey k' m := by
  have hkk : k ≠ k' := Ne.symm hne
  induction m with
  | nil => simp [setKey, lookupKey, hkk]
  | cons q rest ih =>
    obtain ⟨k0, l⟩ := q
    by_cases hk : k0 = k
    · subst hk
      simp [setKey, lookupKey, hkk]
    · by_cases hk' : k0 = k'
      · subst hk'
        simp [setKey, lookupKey, hk, ih]
      · simp [setKey, lookupKey, hk, hk', ih]

theorem mem_setKey {p : Str × Listener} {k : Str} {v : Listener}
    {m : List (Str × Listener)} (h : p ∈ setKey k v m) : p = (k, v) ∨ p ∈ m := by
  induction m with
  | nil => simpa [setKey] using h
  | cons q rest ih =>
    obtain ⟨k', l⟩ := q
    by_cases hk : k' = k
    · simp only [setKey, hk, if_pos rfl] at h
      rcases List.mem_cons.mp h with rfl | hp
      · exact Or.inl rfl
      · exact Or.inr (List.mem_cons_of_mem _ hp)
    · simp only [setKey, hk, if_false] at h
      rcases List.mem_cons.mp h with rfl | hp
      · exact Or.inr (List.mem_cons_self _ _)
      · rcases ih hp with h1 | h1
        · exact Or.inl h1
        · exact Or.inr (List.mem_cons_of_mem _ h1)

theorem mem_setKey_of_nodup {p : Str × Listener} {k : Str} {v : Listener}
    {m : List (Str × Listener)} (hnd : (m.map Prod.fst).Nodup)
    (h : p ∈ setKey k v m) : p = (k, v) ∨ (p ∈ m ∧ p.1 ≠ k) := by
  induction m with
  | nil => simpa [setKey] using h
  | cons q rest ih =>
    obtain ⟨k', l⟩ := q
    simp only [List.map_cons, List.nodup_cons] at hnd
    by_cases hk : k' = k
    · subst hk
      simp only [setKey, if_pos rfl] at h
      rcases List.mem_cons.mp h with rfl | hp
      · exact Or.inl rfl
      · refine Or.inr ⟨List.mem_cons_of_mem _ hp, ?_⟩
        intro hpk
        exact hnd.1 (hpk ▸ List.mem_map_of_mem Prod.fst hp)
    · simp only [setKey, hk, if_false] at h
      rcases List.mem_cons.mp h with rfl | hp
      · exact Or.inr ⟨List.mem_cons_self _ _, hk⟩
      · rcases ih hnd.2 hp with h1 | h1
        · exact Or.inl h1
        · exact Or.inr ⟨List.mem_cons_of_mem _ h1.1, h1.2⟩

theorem keys_setKey (k : Str) (v : Listener) (m : List (Str × Listener)) :
    (setKey k v m).map Prod.fst =
      if k ∈ m.map Prod.fst then m.map Prod.fst else m.map Prod.fst ++ [k] := by
  induction m with
  | nil => simp [setKey]
  | cons q rest ih =>
    obtain ⟨k0, l⟩ := q
    by_cases hk : k0 = k
    · subst hk
      have hset : setKey k0 v ((k0, l) :: rest) = (k0, v) :: rest := by
        simp only [setKey, eq_self_iff_true, if_true]
      rw [hset, List.map_cons, List.map_cons, if_pos (List.mem_cons_self _ _)]
    · have hne : ¬k = k0 := fun hq => hk hq.symm
      have hset : setKey k v ((k0, l) :: rest) = (k0, l) :: setKey k v rest := by
        simp only [setKey, if_neg hk]
      rw [hset, List.map_cons, List.map_cons, ih]
      by_cases hmem : k ∈ rest.map Prod.fst
      · rw [if_pos hmem, if_pos (List.mem_cons_of_mem _ hmem)]
      · have hnm : k ∉ k0 :: rest.map Prod.fst := by
          intro hc
          rcases List.mem_cons.mp hc with hc | hc
          · exact hne hc
          · exact hmem hc
        rw [if_neg hmem, if_neg hnm, List.cons_append]

theorem keys_setKey_nodup {k : Str} {v : Listener} {m : List (Str × Listener)}
    (hnd : (m.map Prod.fst).Nodup) : ((setKey k v m).map Prod.fst).Nodup := by
  rw [keys_setKey]
  by_cases hmem : k ∈ m.map Prod.fst
  · simpa [hmem] using hnd
  · simp only [hmem, if_neg, if_false]
    exact List.Nodup.append hnd (List.nodup_singleton k)
      (List.disjoint_singleton.mpr hmem)

theorem eraseKey_sublist (k : Str) (m : List (Str × Listener)) :
    (eraseKey k m).Sublist m := by
  induction m with
  | nil => exact List.Sublist.refl _
  | cons q rest ih =>
    obtain ⟨k', l⟩ := q
    by_cases hk : k' = k
    · simp only [eraseKey, if_pos hk]
      exact List.sublist_cons_self _ _
    · simp only [eraseKey, if_neg hk]
      exact ih.cons₂ _

theorem mem_eraseKey {p : Str × Listener} {k : Str} {m : List (Str × Listener)}
    (h : p ∈ eraseKey k m) : p ∈ m := (eraseKey_sublist k m).mem h

theorem mem_eraseKey_of_nodup {p : Str × Listener} {k : Str} {m : List (Str × Listener)}
    (hnd : (m.map Prod.fst).Nodup) (h : p ∈ eraseKey k m) : p ∈ m ∧ p.1 ≠ k := by
  induction m with
  | nil => simp [eraseKey] at h
  | cons q rest ih =>
    obtain ⟨k', l⟩ := q
    simp only [List.map_cons, List.nodup_cons] at hnd
    by_cases hk : k' = k
    · subst hk
      simp only [eraseKey, if_pos rfl] at h
      refine ⟨List.mem_cons_of_mem _ h, ?_⟩
      intro hpk
      exact hnd.1 (hpk ▸ List.mem_map_of_mem Prod.fst h)
    · simp only [eraseKey, hk, if_false] at h
      rcases List.mem_cons.mp h with rfl | hp
      · exact ⟨List.mem_cons_self _ _, hk⟩
      · obtain ⟨h1, h2⟩ := ih hnd.2 hp
        exact ⟨List.mem_cons_of_mem _ h1, h2⟩

theorem lookupKey_eraseKey_ne {k' k : Str} (hne : k' ≠ k) (m : List (Str × Listener)) :
    lookupKey k' (eraseKey k m) = lookupKey k' m := by
  have hkk : k ≠ k' := Ne.symm hne
  induction m with
  | nil => simp [eraseKey]
  | cons q rest ih =>
    obtain ⟨k0, l⟩ := q
    by_cases hk : k0 = k
    · subst hk
      simp [eraseKey, lookupKey, hkk]
    · by_cases hk' : k0 = k'
      · subst hk'
        simp [eraseKey, hk, lookupKey]
      · simp [eraseKey, hk, lookupKey, hk', ih]

/-! ## Listener-list and dispatch lemmas -/

theorem foldl_erase_eq_nil :
    ∀ (xs : List (Str × Listener)) (f : Str × Listener → Str × Listener)
      (att : List (Str × Listener)), att.Nodup →
      (∀ a ∈ att, a ∈ xs.map f) →
      xs.foldl (fun acc b => acc.erase (f b)) att = []
  | [], _, att, _, hsub => List.eq_nil_iff_forall_not_mem.mpr (fun a ha => by
      simpa using hsub a ha)
  | x :: xs, f, att, hnd, hsub => by
    simp only [List.foldl_cons]
    refine foldl_erase_eq_nil xs f (att.erase (f x)) (hnd.erase _) ?_
    intro a ha
    have h1 : a ≠ f x ∧ a ∈ att := hnd.mem_erase_iff.mp ha
    have h2 : a ∈ f x :: xs.map f := by
      rw [← List.map_cons]
      exact hsub a h1.2
    rcases List.mem_cons.mp h2 with h3 | h3
    · exact absurd h3 h1.1
    · exact h3

theorem dispatchList_append (owner : Nat) (matchesSel : Str → Node → Bool) (rootId : Nat)
    (att1 att2 : List (Str × Listener)) (t : Str) (origin : Option (List Node)) :
    dispatchList owner matchesSel rootId (att1 ++ att2) t origin =
      dispatchList owner matchesSel rootId att1 t origin ++
        dispatchList owner matchesSel rootId att2 t origin := by
  simp [dispatchList, List.filter_append, List.filterMap_append]

theorem dispatchList_mem {owner : Nat} {matchesSel : Str → Node → Bool} {rootId : Nat}
    {att : List (Str × Listener)} {t : Str} {origin : Option (List Node)} {inv : Invocation}
    (h : inv ∈ dispatchList owner matchesSel rootId att t origin) :
    ∃ p ∈ att, p.1 = t ∧
      runListenerFn rootId (matchesSel p.2.selector) origin = some inv.target ∧
      inv.listenerId = p.2.id ∧ inv.ctx = owner ∧ inv.handlerId = p.2.handlerId := by
  simp only [dispatchList, List.mem_filterMap, List.mem_filter] at h
  obtain ⟨p, hp, hmap⟩ := h
  obtain ⟨tgt, hrun, rfl⟩ := Option.map_eq_some'.mp hmap
  exact ⟨p, hp.1, by simpa using hp.2, hrun, rfl, rfl, rfl⟩

theorem dispatchList_filter_listener_nil {owner : Nat} {matchesSel : Str → Node → Bool}
    {rootId : Nat} {att : List (Str × Listener)} {t : Str} {origin : Option (List Node)}
    {m : Nat} (h : ∀ p ∈ att, p.2.id ≠ m) :
    (dispatchList owner matchesSel rootId att t origin).filter
      (fun inv => inv.listenerId == m) = [] := by
  rw [List.filter_eq_nil_iff]
  intro inv hinv
  obtain ⟨p, hp, -, -, hid, -, -⟩ := dispatchList_mem hinv
  simp [hid, h p hp]

theorem dispatchList_filter_handler_nil {owner : Nat} {matchesSel : Str → Node → Bool}
    {rootId : Nat} {att : List (Str × Listener)} {t : Str} {origin : Option (List Node)}
    {m : Nat} (h : ∀ p ∈ att, p.2.handlerId ≠ m) :
    (dispatchList owner matchesSel rootId att t origin).filter
      (fun inv => inv.handlerId == m) = [] := by
  rw [List.filter_eq_nil_iff]
  intro inv hinv
  obtain ⟨p, hp, -, -, -, -, hhd⟩ := dispatchList_mem hinv
  simp [hhd, h p hp]

theorem runListenerFn_none (rootId : Nat) (msel : Node → Bool) :
    runListenerFn rootId msel none = none := rfl

theorem dispatchList_none (owner : Nat) (matchesSel : Str → Node → Bool) (rootId : Nat)
    (att : List (Str × Listener)) (t : Str) :
    dispatchList owner matchesSel rootId att t none = [] := by
  simp [dispatchList, runListenerFn]

theorem closestFrom_subset {msel : Node → Bool} :
    ∀ {c tc : List Node}, closestFrom msel c = some tc → ∀ n ∈ tc, n ∈ c := by
  intro c
  induction c with
  | nil => intro tc h; simp [closestFrom] at h
  | cons x rest ih =>
    intro tc h n hn
    rcases hx : x.kind with hk | hk
    · simp only [closestFrom, hx] at h
      by_cases hm : msel x = true
      · rw [if_pos hm] at h
        obtain rfl := Option.some.inj h
        exact hn
      · rw [if_neg hm] at h
        exact List.mem_cons_of_mem _ (ih h n hn)
    · simp only [closestFrom, hx] at h
      exact List.mem_cons_of_mem _ (ih h n hn)

theorem toElementChain_subset {c ec : List Node} (h : toElementChain c = some ec) :
    ∀ n ∈ ec, n ∈ c := by
  intro n hn
  cases c with
  | nil => exact absurd h (by simp [toElementChain])
  | cons x rest =>
    cases hx : x.kind with
    | element =>
      simp only [toElementChain, hx] at h
      obtain rfl := Option.some.inj h
      exact hn
    | text =>
      cases rest with
      | nil => simp [toElementChain, hx] at h
      | cons p rest' =>
        cases hp : p.kind with
        | element =>
          simp only [toElementChain, hx, hp] at h
          obtain rfl := Option.some.inj h
          exact List.mem_cons_of_mem _ hn
        | text => simp [toElementChain, hx, hp] at h

theorem runListenerFn_none_of_root_not_mem {rootId : Nat} {msel : Node → Bool}
    {chain : List Node} (h : ∀ n ∈ chain, n.id ≠ rootId) :
    runListenerFn rootId msel (some chain) = none := by
  cases hec : toElementChain chain with
  | none => simp [runListenerFn, hec]
  | some ec =>
    cases hcf : closestFrom msel ec with
    | none => simp [runListenerFn, hec, hcf]
    | some tc =>
      cases tc with
      | nil => simp [runListenerFn, hec, hcf]
      | cons t ts =>
        have hcont : containsRoot rootId (t :: ts) = false := by
          simp only [containsRoot, List.any_eq_false, decide_eq_true_eq]
          intro n hn
          exact h n (toElementChain_subset hec n (closestFrom_subset hcf n hn))
        simp [runListenerFn, hec, hcf, hcont]

theorem dispatchList_none_of_root_not_mem {owner : Nat} {matchesSel : Str → Node → Bool}
    {rootId : Nat} {att : List (Str × Listener)} {t : Str} {chain : List Node}
    (h : ∀ n ∈ chain, n.id ≠ rootId) :
    dispatchList owner matchesSel rootId att t (some chain) = [] := by
  simp only [dispatchList, List.filterMap_eq_nil_iff]
  intro p hp
  rw [runListenerFn_none_of_root_not_mem h]
  rfl

/-! ## Shape of the state after `delegate` -/

theorem delegate_delegatedEvents (s : CtrlState) (e sel : Str) (h : Nat) :
    (delegate s e sel h).delegatedEvents =
      setKey (keyStr e sel) ⟨s.nextId, sel, h⟩ s.delegatedEvents := by
  cases hlk : lookupKey (keyStr e sel) s.delegatedEvents <;> simp [delegate, hlk]

theorem delegate_nextId (s : CtrlState) (e sel : Str) (h : Nat) :
    (delegate s e sel h).nextId = s.nextId + 1 := by
  cases hlk : lookupKey (keyStr e sel) s.delegatedEvents <;> simp [delegate, hlk]

theorem delegate_owner (s : CtrlState) (e sel : Str) (h : Nat) :
    (delegate s e sel h).owner = s.owner := by
  cases hlk : lookupKey (keyStr e sel) s.delegatedEvents <;> simp [delegate, hlk]

theorem delegate_attached_split (s : CtrlState) (e sel : Str) (h : Nat)
    (hf : ∀ p ∈ s.attached, p.2.id < s.nextId) :
    ∃ att1, (∀ p ∈ att1, p ∈ s.attached) ∧
      (delegate s e sel h).attached = att1 ++ [(e, ⟨s.nextId, sel, h⟩)] := by
  cases hlk : lookupKey (keyStr e sel) s.delegatedEvents with
  | none =>
    refine ⟨s.attached, fun p hp => hp, ?_⟩
    have hnotin : (e, (⟨s.nextId, sel, h⟩ : Listener)) ∉ s.attached := by
      intro hc
      exact absurd (hf _ hc) (by simp)
    simp [delegate, hlk, addEV, hnotin]
  | some old =>
    refine ⟨removeEV e old s.attached, fun p hp => List.mem_of_mem_erase hp, ?_⟩
    have hnotin : (e, (⟨s.nextId, sel, h⟩ : Listener)) ∉ removeEV e old s.attached := by
      intro hc
      exact absurd (hf _ (List.mem_of_mem_erase hc)) (by simp)
    simp [delegate, hlk, addEV, hnotin]

/-! ## Preservation of the invariant -/

theorem nodup_ids_append {att : List (Str × Listener)} {l : Listener}
    (hnd : (att.map (fun p => p.2.id)).Nodup) (hfr : ∀ p ∈ att, p.2.id ≠ l.id) (e : Str) :
    (((att ++ [(e, l)]).map (fun p => p.2.id))).Nodup := by
  rw [List.map_append]
  refine List.Nodup.append hnd (by simp) ?_
  intro a ha
  simp only [List.mem_map] at ha
  obtain ⟨p, hp, rfl⟩ := ha
  simp [hfr p hp]

theorem inv_delegate {s : CtrlState} (hs : Inv s) {e : Str} (sel : Str) (hid : Nat)
    (hcf : ':' ∉ e) : Inv (delegate s e sel hid) := by
  have hmap := delegate_delegatedEvents s e sel hid
  have hnext := delegate_nextId s e sel hid
  cases hlk : lookupKey (keyStr e sel) s.delegatedEvents with
  | none =>
    have hnotin : (e, (⟨s.nextId, sel, hid⟩ : Listener)) ∉ s.attached := by
      intro hc
      exact absurd (hs.fresh_att _ hc) (by simp)
    have hatt : (delegate s e sel hid).attached =
        s.attached ++ [(e, ⟨s.nextId, sel, hid⟩)] := by
      simp [delegate, hlk, addEV, hnotin]
    constructor
    · rw [hatt, hnext]
      intro p hp
      rcases List.mem_append.mp hp with hp1 | hp1
      · exact Nat.lt_succ_of_lt (hs.fresh_att p hp1)
      · obtain rfl := List.mem_singleton.mp hp1
        exact Nat.lt_succ_self _
    · rw [hmap, hnext]
      intro p hp
      rcases mem_setKey hp with rfl | hp1
      · exact Nat.lt_succ_self _
      · exact Nat.lt_succ_of_lt (hs.fresh_map p hp1)
    · rw [hatt]
      exact nodup_ids_append hs.ids_nodup
        (fun p hp => Nat.ne_of_lt (hs.fresh_att p hp)) e
    · rw [hmap]
      exact keys_setKey_nodup hs.keys_nodup
    · rw [hmap]
      intro p hp
      rcases mem_setKey hp with rfl | hp1
      · exact ⟨e, hcf, rfl⟩
      · exact hs.stored_cf p hp1
    · rw [hatt]
      intro p hp
      rcases List.mem_append.mp hp with hp1 | hp1
      · exact hs.att_cf p hp1
      · obtain rfl := List.mem_singleton.mp hp1
        exact hcf
    · rw [hatt, hmap]
      intro p hp
      rcases List.mem_append.mp hp with hp1 | hp1
      · have hl0 := hs.sync_att p hp1
        have hne : keyStr p.1 p.2.selector ≠ keyStr e sel := by
          intro hkey
          rw [hkey, hlk] at hl0
          exact Option.noConfusion hl0
        rw [lookupKey_setKey_ne hne]
        exact hl0
      · obtain rfl := List.mem_singleton.mp hp1
        exact lookupKey_setKey_self _ _ _
    · rw [hatt, hmap]
      intro p hp
      rcases mem_setKey hp with rfl | hp1
      · rw [keyEventType_keyStr sel hcf]
        exact List.mem_append_right _ (List.mem_singleton.mpr rfl)
      · exact List.mem_append_left _ (hs.sync_map p hp1)
  | some old =>
    have hmemold : (keyStr e sel, old) ∈ s.delegatedEvents := lookupKey_mem hlk
    obtain ⟨e0, hcf0, hk0⟩ := hs.stored_cf _ hmemold
    obtain ⟨he0, hsel0⟩ := keyStr_inj hcf0 hcf hk0.symm
    have hattold : (e, old) ∈ s.attached := by
      simpa [keyEventType_keyStr sel hcf] using hs.sync_map _ hmemold
    have hattnd : s.attached.Nodup := hs.ids_nodup.of_map
    have hnotin : (e, (⟨s.nextId, sel, hid⟩ : Listener)) ∉ s.attached.erase (e, old) := by
      intro hc
      exact absurd (hs.fresh_att _ (List.mem_of_mem_erase hc)) (by simp)
    have hatt : (delegate s e sel hid).attached =
        s.attached.erase (e, old) ++ [(e, ⟨s.nextId, sel, hid⟩)] := by
      simp [delegate, hlk, addEV, hnotin, removeEV]
    have hmem_att1 : ∀ {p}, p ∈ s.attached.erase (e, old) ↔ p ≠ (e, old) ∧ p ∈ s.attached :=
      fun {p} => hattnd.mem_erase_iff
    constructor
    · rw [hatt, hnext]
      intro p hp
      rcases List.mem_append.mp hp with hp1 | hp1
      · exact Nat.lt_succ_of_lt (hs.fresh_att p (List.mem_of_mem_erase hp1))
      · obtain rfl := List.mem_singleton.mp hp1
        exact Nat.lt_succ_self _
    · rw [hmap, hnext]
      intro p hp
      rcases mem_setKey hp with rfl | hp1
      · exact Nat.lt_succ_self _
      · exact Nat.lt_succ_of_lt (hs.fresh_map p hp1)
    · rw [hatt]
      refine nodup_ids_append (((List.erase_sublist _ _).map _).nodup hs.ids_nodup) ?_ e
      intro p hp
      exact Nat.ne_of_lt (hs.fresh_att p (List.mem_of_mem_erase hp))
    · rw [hmap]
      exact keys_setKey_nodup hs.keys_nodup
    · rw [hmap]
      intro p hp
      rcases mem_setKey hp with rfl | hp1
      · exact ⟨e, hcf, rfl⟩
      · exact hs.stored_cf p hp1
    · rw [hatt]
      intro p hp
      rcases List.mem_append.mp hp with hp1 | hp1
      · exact hs.att_cf p (List.mem_of_mem_erase hp1)
      · obtain rfl := List.mem_singleton.mp hp1
        exact hcf
    · rw [hatt, hmap]
      intro p hp
      rcases List.mem_append.mp hp with hp1 | hp1
      · obtain ⟨hpne, hpmem⟩ := hmem_att1.mp hp1
        have hl0 := hs.sync_att p hpmem
        have hne : keyStr p.1 p.2.selector ≠ keyStr e sel := by
          intro hkey
          rw [hkey, hlk] at hl0
          obtain rfl := Option.some.inj hl0
          obtain ⟨hp1e, -⟩ := keyStr_inj (hs.att_cf p hpmem) hcf hkey
          exact hpne (Prod.ext hp1e rfl)
        rw [lookupKey_setKey_ne hne]
        exact hl0
      · obtain rfl := List.mem_singleton.mp hp1
        exact lookupKey_setKey_self _ _ _
    · rw [hatt, hmap]
      intro p hp
      rcases mem_setKey_of_nodup hs.keys_nodup hp with rfl | ⟨hp1, hpk⟩
      · rw [keyEventType_keyStr sel hcf]
        exact List.mem_append_right _ (List.mem_singleton.mpr rfl)
      · have hq := hs.sync_map p hp1
        obtain ⟨e1, hcf1, hk1⟩ := hs.stored_cf p hp1
        have hket : keyEventType p.1 = e1 := by
          rw [hk1]
          exact keyEventType_keyStr _ hcf1
        refine List.mem_append_left _ (hmem_att1.mpr ⟨?_, hq⟩)
        intro hqe
        have he1 : e1 = e := by
          have := congrArg Prod.fst hqe
          simpa [hket] using this
        have hsnd : p.2 = old := congrArg Prod.snd hqe
        apply hpk
        rw [hk1, he1, hsnd, hsel0]

theorem inv_undelegate {s : CtrlState} (hs : Inv s) {e : Str} (sel : Str)
    (hcf : ':' ∉ e) : Inv (undelegate s e sel) := by
  cases hlk : lookupKey (keyStr e sel) s.delegatedEvents with
  | none => simpa [undelegate, hlk] using hs
  | some l =>
    have hmeml : (keyStr e sel, l) ∈ s.delegatedEvents := lookupKey_mem hlk
    obtain ⟨e0, hcf0, hk0⟩ := hs.stored_cf _ hmeml
    obtain ⟨he0, hsel0⟩ := keyStr_inj hcf0 hcf hk0.symm
    have hattnd : s.attached.Nodup := hs.ids_nodup.of_map
    have hatt : (undelegate s e sel).attached = s.attached.erase (e, l) := by
      simp [undelegate, hlk, removeEV]
    have hmapeq : (undelegate s e sel).delegatedEvents =
        eraseKey (keyStr e sel) s.delegatedEvents := by
      simp [undelegate, hlk]
    have hnexteq : (undelegate s e sel).nextId = s.nextId := by
      simp [undelegate, hlk]
    constructor
    · rw [hatt, hnexteq]
      intro p hp
      exact hs.fresh_att p (List.mem_of_mem_erase hp)
    · rw [hmapeq, hnexteq]
      intro p hp
      exact hs.fresh_map p (mem_eraseKey hp)
    · rw [hatt]
      exact ((List.erase_sublist _ _).map _).nodup hs.ids_nodup
    · rw [hmapeq]
      exact ((eraseKey_sublist _ _).map _).nodup hs.keys_nodup
    · rw [hmapeq]
      intro p hp
      exact hs.stored_cf p (mem_eraseKey hp)
    · rw [hatt]
      intro p hp
      exact hs.att_cf p (List.mem_of_mem_erase hp)
    · rw [hatt, hmapeq]
      intro p hp
      obtain ⟨hpne, hpmem⟩ := hattnd.mem_erase_iff.mp hp
      have hl0 := hs.sync_att p hpmem
      have hne : keyStr p.1 p.2.selector ≠ keyStr e sel := by
        intro hkey
        rw [hkey, hlk] at hl0
        obtain rfl := Option.some.inj hl0
        obtain ⟨hp1e, -⟩ := keyStr_inj (hs.att_cf p hpmem) hcf hkey
        exact hpne (Prod.ext hp1e rfl)
      rw [lookupKey_eraseKey_ne hne]
      exact hl0
    · rw [hatt, hmapeq]
      intro p hp
      obtain ⟨hp1, hpk⟩ := mem_eraseKey_of_nodup hs.keys_nodup hp
      have hq := hs.sync_map p hp1
      obtain ⟨e1, hcf1, hk1⟩ := hs.stored_cf p hp1
      have hket : keyEventType p.1 = e1 := by
        rw [hk1]
        exact keyEventType_keyStr _ hcf1
      refine hattnd.mem_erase_iff.mpr ⟨?_, hq⟩
      intro hqe
      have he1 : e1 = e := by
        have := congrArg Prod.fst hqe
        simpa [hket] using this
      have hsnd : p.2 = l := congrArg Prod.snd hqe
      apply hpk
      rw [hk1, he1, hsnd, hsel0]

theorem undelegateAll_attached_nil {s : CtrlState} (hs : Inv s) :
    (undelegateAll s).attached = [] := by
  have hsub : ∀ p ∈ s.attached,
      p ∈ s.delegatedEvents.map (fun kl => (keyEventType kl.1, kl.2)) := by
    intro p hp
    have hl0 := hs.sync_att p hp
    have hm : (keyStr p.1 p.2.selector, p.2) ∈ s.delegatedEvents := lookupKey_mem hl0
    have hmm : (keyEventType (keyStr p.1 p.2.selector), p.2) ∈
        s.delegatedEvents.map (fun kl => (keyEventType kl.1, kl.2)) :=
      List.mem_map_of_mem _ hm
    have heq : (keyEventType (keyStr p.1 p.2.selector), p.2) = p := by
      rw [keyEventType_keyStr _ (hs.att_cf p hp)]
    rw [← heq]
    exact hmm
  have hnd : s.attached.Nodup := hs.ids_nodup.of_map
  have hfold := foldl_erase_eq_nil s.delegatedEvents
      (fun kl => (keyEventType kl.1, kl.2)) s.attached hnd hsub
  simpa [undelegateAll, removeEV] using hfold

theorem inv_undelegateAll {s : CtrlState} (hs : Inv s) : Inv (undelegateAll s) := by
  have hnil := undelegateAll_attached_nil hs
  constructor
  · rw [hnil]; intro p hp; simp at hp
  · intro p hp; simp [undelegateAll] at hp
  · rw [hnil]; simp
  · simp [undelegateAll]
  · intro p hp; simp [undelegateAll] at hp
  · rw [hnil]; intro p hp; simp at hp
  · rw [hnil]; intro p hp; simp at hp
  · intro p hp; simp [undelegateAll] at hp

theorem inv_initState (o : Nat) : Inv (initState o) := by
  constructor <;> simp [initState]

theorem inv_applyOp {s : CtrlState} (hs : Inv s) {op : Op} (hop : OpColonFree op) :
    Inv (applyOp s op) := by
  cases op with
  | del e sel h => exact inv_delegate hs sel h hop
  | undel e sel => exact inv_undelegate hs sel hop
  | undelAll => exact inv_undelegateAll hs

theorem inv_runOps : ∀ (ops : List Op) (s : CtrlState), Inv s →
    (∀ op ∈ ops, OpColonFree op) → Inv (runOps s ops)
  | [], _, hs, _ => hs
  | op :: ops, s, hs, hops => by
    have h1 : OpColonFree op := hops op (List.mem_cons_self _ _)
    have h2 : ∀ o ∈ ops, OpColonFree o := fun o ho => hops o (List.mem_cons_of_mem _ ho)
    have h3 : Inv (applyOp s op) := inv_applyOp hs h1
    simpa [runOps, List.foldl_cons] using inv_runOps ops (applyOp s op) h3 h2

/-! ## Further dispatch lemmas -/

theorem delegate_attached_some {s : CtrlState} {e sel : Str} {old : Listener} (hid : Nat)
    (hlk : lookupKey (keyStr e sel) s.delegatedEvents = some old) :
    (delegate s e sel hid).attached =
      addEV e ⟨s.nextId, sel, hid⟩ (removeEV e old s.attached) := by
  simp [delegate, hlk]

theorem runListenerFn_invoke {rootId : Nat} {msel : Node → Bool} {n : Node} {rest : List Node}
    {t : Node} {ts : List Node} (hn : n.kind = NodeKind.element)
    (hcf : closestFrom msel (n :: rest) = some (t :: ts))
    (hroot : containsRoot rootId (t :: ts) = true) :
    runListenerFn rootId msel (some (n :: rest)) = some t := by
  simp [runListenerFn, toElementChain, hn, hcf, hroot]

theorem dispatchList_singleton_invoke {owner : Nat} {matchesSel : Str → Node → Bool}
    {rootId : Nat} {e : Str} {l : Listener} {origin : Option (List Node)} {t : Node}
    (hrun : runListenerFn rootId (matchesSel l.selector) origin = some t) :
    dispatchList owner matchesSel rootId [(e, l)] e origin =
      [⟨l.id, owner, l.handlerId, t⟩] := by
  simp [dispatchList, hrun]

theorem countP_le_one_of_unique {α : Type} (P : α → Bool) :
    ∀ {l : List α}, l.Nodup →
      (∀ a ∈ l, ∀ b ∈ l, P a = true → P b = true → a = b) → l.countP P ≤ 1 := by
  intro l
  induction l with
  | nil => intro _ _; simp
  | cons a l' ih =>
    intro hnd huniq
    rw [List.countP_cons]
    rcases List.nodup_cons.mp hnd with ⟨hna, hnd'⟩
    by_cases hp : P a = true
    · have h0 : l'.countP P = 0 := by
        rw [List.countP_eq_zero]
        intro b hb hpb
        obtain rfl := huniq a (List.mem_cons_self _ _) b (List.mem_cons_of_mem _ hb) hp hpb
        exact hna hb
      simp [h0, hp]
    · have hle := ih hnd' (fun x hx y hy hpx hpy =>
        huniq x (List.mem_cons_of_mem _ hx) y (List.mem_cons_of_mem _ hy) hpx hpy)
      simpa [hp] using hle

/-! ## Claims -/

/-- C1: after `delegate(eventType, selector, handler)`, dispatching a native
event of that type whose origin is an element in the root's subtree with a
nearest matching ancestor-or-self `t` contained in the root invokes that
registration's logical handler exactly once, with the matched element `t` as
argument and the owning component (`s.owner`) bound as the handler's
context. -/
theorem C1_register_dispatch_invokes_once
    (s : CtrlState) (e sel : Str) (hid : Nat) (matchesSel : Str → Node → Bool) (rootId : Nat)
    (n : Node) (rest : List Node) (t : Node) (ts : List Node)
    (hfresh : ∀ p ∈ s.attached, p.2.id < s.nextId)
    (helem : n.kind = NodeKind.element)
    (hclosest : closestFrom (matchesSel sel) (n :: rest) = some (t :: ts))
    (hcontained : containsRoot rootId (t :: ts) = true) :
    (dispatch matchesSel rootId (delegate s e sel hid) e (some (n :: rest))).filter
        (fun inv => inv.listenerId == s.nextId) =
      [⟨s.nextId, s.owner, hid, t⟩] := by
  obtain ⟨att1, hsub, hatt⟩ := delegate_attached_split s e sel hid hfresh
  have hown := delegate_owner s e sel hid
  simp only [dispatch]
  rw [hatt, hown, dispatchList_append, List.filter_append]
  rw [dispatchList_filter_listener_nil (fun p hp => Nat.ne_of_lt (hfresh p (hsub p hp)))]
  have hrun : runListenerFn rootId (matchesSel sel) (some (n :: rest)) = some t :=
    runListenerFn_invoke helem hclosest hcontained
  rw [dispatchList_singleton_invoke hrun]
  simp

/-- C1 witness: a concrete controller, registration and event exercising
`C1_register_dispatch_invokes_once`. -/
theorem C1_witness :
    ((∀ p ∈ (initState 0).attached, p.2.id < (initState 0).nextId) ∧
      (Node.mk 1 NodeKind.element).kind = NodeKind.element ∧
      closestFrom ((fun sl nd => sl == (".btn".data) && (nd.id == 1)) (".btn".data))
          [⟨1, NodeKind.element⟩, ⟨0, NodeKind.element⟩] =
        some [⟨1, NodeKind.element⟩, ⟨0, NodeKind.element⟩] ∧
      containsRoot 0 [⟨1, NodeKind.element⟩, ⟨0, NodeKind.element⟩] = true) ∧
    (dispatch (fun sl nd => sl == (".btn".data) && (nd.id == 1)) 0
        (delegate (initState 0) ("click".data) (".btn".data) 7) ("click".data)
        (some [⟨1, NodeKind.element⟩, ⟨0, NodeKind.element⟩])).filter
        (fun inv => inv.listenerId == (initState 0).nextId) =
      [⟨(initState 0).nextId, (initState 0).owner, 7, ⟨1, NodeKind.element⟩⟩] :=
  ⟨⟨by decide, by decide, by decide, by decide⟩,
    C1_register_dispatch_invokes_once (initState 0) ("click".data) (".btn".data) 7
      (fun sl nd => sl == (".btn".data) && (nd.id == 1)) 0
      ⟨1, NodeKind.element⟩ [⟨0, NodeKind.element⟩] ⟨1, NodeKind.element⟩
      [⟨0, NodeKind.element⟩] (by decide) (by decide) (by decide) (by decide)⟩

/-- C2 counterexample: one `delegate` with the event type `"a:b"` (which
contains the key separator `':'`) followed by `undelegateAll` leaves the
physical listener attached to the root for type `"a:b"` while the registry
map is empty — `undelegateAll` recovers the wrong event type (`"a"`) from the
stored key `"a:b:s"`, so its `removeEventListener` call is a no-op and the
attached-iff-stored invariant is violated. -/
theorem C2_counterexample :
    (("a:b".data, (⟨0, "s".data, 0⟩ : Listener)) ∈
        (runOps (initState 0) [Op.del ("a:b".data) ("s".data) 0, Op.undelAll]).attached) ∧
      lookupKey (keyStr ("a:b".data) ("s".data))
          (runOps (initState 0) [Op.del ("a:b".data) ("s".data) 0, Op.undelAll]).delegatedEvents
        = none := by
  decide

/-- C2 (amended): after every sequence of `delegate` / `undelegate` /
`undelegateAll` operations in which every event type contains no `':'`
character, a physical listener is attached to the root iff its registration
is stored in the registry map (in both directions), and `undelegateAll`
detaches the physical listener of every stored registration, leaving nothing
attached. -/
theorem C2_amended_listener_sync
    (o : Nat) (ops : List Op) (hcf : ∀ op ∈ ops, OpColonFree op) :
    (∀ p ∈ (runOps (initState o) ops).attached,
        lookupKey (keyStr p.1 p.2.selector)
          (runOps (initState o) ops).delegatedEvents = some p.2) ∧
    (∀ p ∈ (runOps (initState o) ops).delegatedEvents,
        (keyEventType p.1, p.2) ∈ (runOps (initState o) ops).attached) ∧
    (undelegateAll (runOps (initState o) ops)).attached = [] := by
  have hinv := inv_runOps ops (initState o) (inv_initState o) hcf
  exact ⟨hinv.sync_att, hinv.sync_map, undelegateAll_attached_nil hinv⟩

/-- C2 witness: the amended invariant instantiated on a concrete colon-free
operation sequence. -/
theorem C2_witness :
    (∀ op ∈ [Op.del ("click".data) (".btn".data) 0, Op.undel ("click".data) (".btn".data),
        Op.del ("input".data) ("form".data) 1], OpColonFree op) ∧
    ((∀ p ∈ (runOps (initState 0) [Op.del ("click".data) (".btn".data) 0,
          Op.undel ("click".data) (".btn".data), Op.del ("input".data) ("form".data) 1]).attached,
        lookupKey (keyStr p.1 p.2.selector)
          (runOps (initState 0) [Op.del ("click".data) (".btn".data) 0,
            Op.undel ("click".data) (".btn".data),
            Op.del ("input".data) ("form".data) 1]).delegatedEvents = some p.2) ∧
     (∀ p ∈ (runOps (initState 0) [Op.del ("click".data) (".btn".data) 0,
          Op.undel ("click".data) (".btn".data),
          Op.del ("input".data) ("form".data) 1]).delegatedEvents,
        (keyEventType p.1, p.2) ∈
          (runOps (initState 0) [Op.del ("click".data) (".btn".data) 0,
            Op.undel ("click".data) (".btn".data),
            Op.del ("input".data) ("form".data) 1]).attached) ∧
     (undelegateAll (runOps (initState 0) [Op.del ("click".data) (".btn".data) 0,
          Op.undel ("click".data) (".btn".data),
          Op.del ("input".data) ("form".data) 1])).attached = []) :=
  ⟨by decide, C2_amended_listener_sync 0 _ (by decide)⟩

/-- C3: re-registering the same `(eventType, selector)` pair replaces the
registration: the registry still has unique keys and stores exactly the new
listener under the key, the first call's physical listener is detached from
the root, the new one is attached, no dispatched event ever invokes the
handler through the replaced physical listener, and a matching event invokes
the new handler exactly once through the new listener. -/
theorem C3_redelegate_replaces
    (s : CtrlState) (e sel : Str) (h1 h2 : Nat) (matchesSel : Str → Node → Bool) (rootId : Nat)
    (hfresh : ∀ p ∈ s.attached, p.2.id < s.nextId)
    (hkeys : (s.delegatedEvents.map Prod.fst).Nodup) :
    ((((delegate (delegate s e sel h1) e sel h2).delegatedEvents.map Prod.fst).Nodup) ∧
      lookupKey (keyStr e sel) (delegate (delegate s e sel h1) e sel h2).delegatedEvents =
        some ⟨s.nextId + 1, sel, h2⟩) ∧
    (∀ p ∈ (delegate (delegate s e sel h1) e sel h2).attached, p.2.id ≠ s.nextId) ∧
    ((e, (⟨s.nextId + 1, sel, h2⟩ : Listener)) ∈
      (delegate (delegate s e sel h1) e sel h2).attached) ∧
    (∀ ty origin,
      (dispatch matchesSel rootId (delegate (delegate s e sel h1) e sel h2) ty origin).filter
        (fun inv => inv.listenerId == s.nextId) = []) ∧
    (∀ n rest t ts, n.kind = NodeKind.element →
      closestFrom (matchesSel sel) (n :: rest) = some (t :: ts) →
      containsRoot rootId (t :: ts) = true →
      (dispatch matchesSel rootId (delegate (delegate s e sel h1) e sel h2) e
          (some (n :: rest))).filter (fun inv => inv.listenerId == s.nextId + 1) =
        [⟨s.nextId + 1, s.owner, h2, t⟩]) := by
  have hlk1 : lookupKey (keyStr e sel) (delegate s e sel h1).delegatedEvents =
      some ⟨s.nextId, sel, h1⟩ := by
    rw [delegate_delegatedEvents]
    exact lookupKey_setKey_self _ _ _
  obtain ⟨att1, hsub, hatt1⟩ := delegate_attached_split s e sel h1 hfresh
  have hn1 := delegate_nextId s e sel h1
  have hids1 : ∀ p ∈ att1, p.2.id < s.nextId := fun p hp => hfresh p (hsub p hp)
  have hl1notin : (e, (⟨s.nextId, sel, h1⟩ : Listener)) ∉ att1 := by
    intro hc
    exact absurd (hids1 _ hc) (by simp)
  have hl2notin : (e, (⟨s.nextId + 1, sel, h2⟩ : Listener)) ∉ att1 := by
    intro hc
    have hlt : s.nextId + 1 < s.nextId := hids1 _ hc
    omega
  have hatt2 : (delegate (delegate s e sel h1) e sel h2).attached =
      att1 ++ [(e, ⟨s.nextId + 1, sel, h2⟩)] := by
    have hrem : ((delegate s e sel h1).attached).erase (e, (⟨s.nextId, sel, h1⟩ : Listener)) =
        att1 := by
      rw [hatt1, List.erase_append_right _ hl1notin, List.erase_cons_head, List.append_nil]
    rw [delegate_attached_some h2 hlk1, hn1, removeEV, hrem]
    simp only [addEV]
    rw [if_neg hl2notin]
  have hne2 : ∀ p ∈ att1 ++ [(e, (⟨s.nextId + 1, sel, h2⟩ : Listener))], p.2.id ≠ s.nextId := by
    intro p hp
    rcases List.mem_append.mp hp with hp1 | hp1
    · exact Nat.ne_of_lt (hids1 p hp1)
    · obtain rfl := List.mem_singleton.mp hp1
      exact Nat.succ_ne_self _
  refine ⟨⟨?_, ?_⟩, ?_, ?_, ?_, ?_⟩
  · rw [delegate_delegatedEvents, delegate_delegatedEvents]
    exact keys_setKey_nodup (keys_setKey_nodup hkeys)
  · rw [delegate_delegatedEvents, hn1]
    exact lookupKey_setKey_self _ _ _
  · rw [hatt2]
    exact hne2
  · rw [hatt2]
    exact List.mem_append_right _ (List.mem_singleton.mpr rfl)
  · intro ty origin
    simp only [dispatch]
    rw [hatt2]
    exact dispatchList_filter_listener_nil hne2
  · intro n rest t ts hn hcf hct
    have hown2 : (delegate (delegate s e sel h1) e sel h2).owner = s.owner := by
      rw [delegate_owner, delegate_owner]
    simp only [dispatch]
    rw [hatt2, hown2, dispatchList_append, List.filter_append]
    rw [dispatchList_filter_listener_nil (fun p hp => by
      have := hids1 p hp
      omega)]
    have hrun : runListenerFn rootId (matchesSel sel) (some (n :: rest)) = some t :=
      runListenerFn_invoke hn hcf hct
    rw [dispatchList_singleton_invoke hrun]
    simp

/-- C3 witness: a concrete replacement scenario exercising
`C3_redelegate_replaces`. -/
theorem C3_witness :
    ((∀ p ∈ (initState 0).attached, p.2.id < (initState 0).nextId) ∧
      (((initState 0).delegatedEvents.map Prod.fst).Nodup)) ∧
    ((((delegate (delegate (initState 0) ("click".data) (".btn".data) 1)
          ("click".data) (".btn".data) 2).delegatedEvents.map Prod.fst).Nodup ∧
      lookupKey (keyStr ("click".data) (".btn".data))
          (delegate (delegate (initState 0) ("click".data) (".btn".data) 1)
            ("click".data) (".btn".data) 2).delegatedEvents =
        some ⟨(initState 0).nextId + 1, ".btn".data, 2⟩) ∧
     (∀ p ∈ (delegate (delegate (initState 0) ("click".data) (".btn".data) 1)
          ("click".data) (".btn".data) 2).attached, p.2.id ≠ (initState 0).nextId) ∧
     (("click".data, (⟨(initState 0).nextId + 1, ".btn".data, 2⟩ : Listener)) ∈
        (delegate (delegate (initState 0) ("click".data) (".btn".data) 1)
          ("click".data) (".btn".data) 2).attached) ∧
     (∀ ty origin,
        (dispatch (fun sl nd => sl == (".btn".data) && (nd.id == 1)) 0
            (delegate (delegate (initState 0) ("click".data) (".btn".data) 1)
              ("click".data) (".btn".data) 2) ty origin).filter
          (fun inv => inv.listenerId == (initState 0).nextId) = []) ∧
     (∀ n rest t ts, n.kind = NodeKind.element →
        closestFrom ((fun sl nd => sl == (".btn".data) && (nd.id == 1)) (".btn".data))
            (n :: rest) = some (t :: ts) →
        containsRoot 0 (t :: ts) = true →
        (dispatch (fun sl nd => sl == (".btn".data) && (nd.id == 1)) 0
            (delegate (delegate (initState 0) ("click".data) (".btn".data) 1)
              ("click".data) (".btn".data) 2) ("click".data) (some (n :: rest))).filter
            (fun inv => inv.listenerId == (initState 0).nextId + 1) =
          [⟨(initState 0).nextId + 1, (initState 0).owner, 2, t⟩])) :=
  ⟨⟨by decide, by decide⟩,
    C3_redelegate_replaces (initState 0) ("click".data) (".btn".data) 1 2
      (fun sl nd => sl == (".btn".data) && (nd.id == 1)) 0 (by decide) (by decide)⟩

/-- C4: if the nearest matching ancestor-or-self element is not contained in
the root's subtree, the physical listener returns without invoking the
logical handler; and an event whose origin chain does not contain the root at
all (it originates outside the root's subtree) produces no invocation for any
attached listener. -/
theorem C4_outside_root_no_invoke
    (rootId : Nat) (msel : Node → Bool) (chain ec : List Node) (t : Node) (ts : List Node)
    (owner : Nat) (matchesSel : Str → Node → Bool) (att : List (Str × Listener)) (ty : Str)
    (hec : toElementChain chain = some ec)
    (hcf : closestFrom msel ec = some (t :: ts))
    (hout : containsRoot rootId (t :: ts) = false) :
    runListenerFn rootId msel (some chain) = none ∧
    ((∀ n ∈ chain, n.id ≠ rootId) →
      dispatchList owner matchesSel rootId att ty (some chain) = []) := by
  constructor
  · simp [runListenerFn, hec, hcf, hout]
  · intro h
    exact dispatchList_none_of_root_not_mem h

/-- C4 witness: an element matching the selector whose ancestor chain does
not contain the root. -/
theorem C4_witness :
    (toElementChain [⟨2, NodeKind.element⟩, ⟨1, NodeKind.element⟩] =
        some [⟨2, NodeKind.element⟩, ⟨1, NodeKind.element⟩] ∧
      closestFrom (fun nd => nd.id == 1) [⟨2, NodeKind.element⟩, ⟨1, NodeKind.element⟩] =
        some [⟨1, NodeKind.element⟩] ∧
      containsRoot 0 [⟨1, NodeKind.element⟩] = false) ∧
    (runListenerFn 0 (fun nd => nd.id == 1)
        (some [⟨2, NodeKind.element⟩, ⟨1, NodeKind.element⟩]) = none ∧
      ((∀ n ∈ [⟨2, NodeKind.element⟩, ⟨1, NodeKind.element⟩], Node.id n ≠ 0) →
        dispatchList 0 (fun _ nd => nd.id == 1) 0 [("click".data, ⟨0, ".x".data, 3⟩)]
          ("click".data) (some [⟨2, NodeKind.element⟩, ⟨1, NodeKind.element⟩]) = [])) :=
  ⟨⟨by decide, by decide, by decide⟩,
    C4_outside_root_no_invoke 0 (fun nd => nd.id == 1)
      [⟨2, NodeKind.element⟩, ⟨1, NodeKind.element⟩]
      [⟨2, NodeKind.element⟩, ⟨1, NodeKind.element⟩] ⟨1, NodeKind.element⟩ []
      0 (fun _ nd => nd.id == 1) [("click".data, ⟨0, ".x".data, 3⟩)] ("click".data)
      (by decide) (by decide) (by decide)⟩

/-- C5 counterexample: the key encoding `eventType ++ ":" ++ selector` is not
injective — the distinct pairs `("a:b", "c")` and `("a", "b:c")` produce the
same key `"a:b:c"`. -/
theorem C5_counterexample :
    keyStr ("a:b".data) ("c".data) = keyStr ("a".data) ("b:c".data) ∧
      ¬("a:b".data = "a".data ∧ "c".data = "b:c".data) := by
  decide

/-- C5 (amended): restricted to pairs whose event type contains no `':'`
character, the key encoding is injective — two such pairs with equal keys are
equal componentwise (selectors may freely contain `':'`). -/
theorem C5_amended_key_injective {e1 s1 e2 s2 : Str} (h1 : ':' ∉ e1) (h2 : ':' ∉ e2)
    (h : keyStr e1 s1 = keyStr e2 s2) : e1 = e2 ∧ s1 = s2 :=
  keyStr_inj h1 h2 h

/-- C5 witness: injectivity applied at concrete colon-free event types. -/
theorem C5_witness :
    (':' ∉ ("click".data) ∧ ':' ∉ ("click".data) ∧
      keyStr ("click".data) (":not(.x)".data) = keyStr ("click".data) (":not(.x)".data)) ∧
    ("click".data = "click".data ∧ ":not(.x)".data = ":not(.x)".data) :=
  ⟨⟨by decide, by decide, by decide⟩,
    C5_amended_key_injective (by decide) (by decide) (by decide)⟩

/-- C6: in the function-based implementation, an event whose origin node is a
text node is resolved to its parent element before selector matching: with an
element parent the dispatch outcome equals the outcome for an event
originating at the parent, a click on text inside a matching contained
element invokes the handler with that element, and when no enclosing element
exists (no parent, or a non-element parent) dispatch returns without
effect. -/
theorem C6_text_origin_resolved
    (rootId : Nat) (msel : Node → Bool) (n p : Node) (rest : List Node)
    (htext : n.kind = NodeKind.text) :
    (p.kind = NodeKind.element →
      runListenerFn rootId msel (some (n :: p :: rest)) =
        runListenerFn rootId msel (some (p :: rest))) ∧
    (p.kind = NodeKind.element → msel p = true → containsRoot rootId (p :: rest) = true →
      runListenerFn rootId msel (some (n :: p :: rest)) = some p) ∧
    (p.kind = NodeKind.text →
      runListenerFn rootId msel (some (n :: p :: rest)) = none) ∧
    (runListenerFn rootId msel (some [n]) = none) := by
  refine ⟨?_, ?_, ?_, ?_⟩
  · intro hp
    simp [runListenerFn, toElementChain, htext, hp]
  · intro hp hm hc
    simp [runListenerFn, toElementChain, closestFrom, htext, hp, hm, hc]
  · intro hp
    simp [runListenerFn, toElementChain, htext, hp]
  · simp [runListenerFn, toElementChain, htext]

/-- C6 witness: a click whose origin is text inside a matching `button`-like
element contained in the root. -/
theorem C6_witness :
    ((Node.mk 5 NodeKind.text).kind = NodeKind.text) ∧
    (((Node.mk 1 NodeKind.element).kind = NodeKind.element →
      runListenerFn 0 (fun nd => nd.id == 1)
          (some [⟨5, NodeKind.text⟩, ⟨1, NodeKind.element⟩, ⟨0, NodeKind.element⟩]) =
        runListenerFn 0 (fun nd => nd.id == 1)
          (some [⟨1, NodeKind.element⟩, ⟨0, NodeKind.element⟩])) ∧
    ((Node.mk 1 NodeKind.element).kind = NodeKind.element →
      (fun nd => nd.id == 1) (Node.mk 1 NodeKind.element) = true →
      containsRoot 0 [⟨1, NodeKind.element⟩, ⟨0, NodeKind.element⟩] = true →
      runListenerFn 0 (fun nd => nd.id == 1)
          (some [⟨5, NodeKind.text⟩, ⟨1, NodeKind.element⟩, ⟨0, NodeKind.element⟩]) =
        some ⟨1, NodeKind.element⟩) ∧
    ((Node.mk 1 NodeKind.element).kind = NodeKind.text →
      runListenerFn 0 (fun nd => nd.id == 1)
          (some [⟨5, NodeKind.text⟩, ⟨1, NodeKind.element⟩, ⟨0, NodeKind.element⟩]) = none) ∧
    (runListenerFn 0 (fun nd => nd.id == 1) (some [⟨5, NodeKind.text⟩]) = none)) :=
  ⟨by decide,
    C6_text_origin_resolved 0 (fun nd => nd.id == 1) ⟨5, NodeKind.text⟩
      ⟨1, NodeKind.element⟩ [⟨0, NodeKind.element⟩] (by decide)⟩

/-- C7: an event with no origin node (null target) causes no handler
invocation and no exception, in both the function-based implementation (its
physical listener returns `none`) and the object-mixin implementation (its
physical listener returns normally without invoking), and dispatch of such an
event yields no invocations whatever is attached. -/
theorem C7_null_target_no_invoke_no_throw
    (rootId : Nat) (msel : Node → Bool) (owner : Nat) (matchesSel : Str → Node → Bool)
    (att : List (Str × Listener)) (t : Str) :
    runListenerFn rootId msel none = none ∧
    runListenerMix rootId msel none = MixResult.ok none ∧
    dispatchList owner matchesSel rootId att t none = [] :=
  ⟨rfl, rfl, dispatchList_none owner matchesSel rootId att t⟩

/-- C8 counterexample: two registrations with the same event type and
different selectors attach two physical listeners to the root for that event
type, refuting the single-physical-listener-per-event-type claim. -/
theorem C8_counterexample :
    ¬((runOps (initState 0) [Op.del ("click".data) (".a".data) 0,
          Op.del ("click".data) (".b".data) 1]).attached.countP
        (fun p => p.1 == "click".data) ≤ 1) := by
  decide

/-- C8 (amended): under colon-free event types, at most one physical listener
is attached to the root per `(eventType, selector)` pair (the per-Key
granularity the registry actually maintains), regardless of how many
operations ran. -/
theorem C8_amended_one_listener_per_pair
    (o : Nat) (ops : List Op) (hcf : ∀ op ∈ ops, OpColonFree op) (t sel : Str) :
    (runOps (initState o) ops).attached.countP
        (fun p => p.1 == t && p.2.selector == sel) ≤ 1 := by
  have hinv := inv_runOps ops (initState o) (inv_initState o) hcf
  apply countP_le_one_of_unique
  · exact hinv.ids_nodup.of_map
  · intro p hp q hq hPp hPq
    simp only [Bool.and_eq_true, beq_iff_eq] at hPp hPq
    have hl1 := hinv.sync_att p hp
    have hl2 := hinv.sync_att q hq
    rw [hPp.1, hPp.2] at hl1
    rw [hPq.1, hPq.2] at hl2
    have hsnd : p.2 = q.2 := Option.some.inj (hl1.symm.trans hl2)
    exact Prod.ext (hPp.1.trans hPq.1.symm) hsnd

/-- C8 witness: the per-pair bound on a concrete two-registration run. -/
theorem C8_witness :
    (∀ op ∈ [Op.del ("click".data) (".a".data) 0, Op.del ("click".data) (".b".data) 1],
      OpColonFree op) ∧
    (runOps (initState 0) [Op.del ("click".data) (".a".data) 0,
        Op.del ("click".data) (".b".data) 1]).attached.countP
      (fun p => p.1 == "click".data && p.2.selector == ".a".data) ≤ 1 :=
  ⟨by decide,
    C8_amended_one_listener_per_pair 0 _ (by decide) ("click".data) (".a".data)⟩

/-- C9: `undelegateAll` recovers the event type to detach as the stored key's
prefix before the first `':'` (which equals the registered event type
whenever that type contains no `':'`), and in an invariant-satisfying state
each stored registration's listener is attached under exactly that recovered
event type before teardown and detached after it. -/
theorem C9_teardown_detaches_by_recovered_type
    (s : CtrlState) (hinv : Inv s) :
    (∀ e sel : Str, ':' ∉ e → keyEventType (keyStr e sel) = e) ∧
    (∀ p ∈ s.delegatedEvents, (keyEventType p.1, p.2) ∈ s.attached ∧
        (keyEventType p.1, p.2) ∉ (undelegateAll s).attached) := by
  refine ⟨fun e sel hcf => keyEventType_keyStr sel hcf, ?_⟩
  intro p hp
  refine ⟨hinv.sync_map p hp, ?_⟩
  rw [undelegateAll_attached_nil hinv]
  simp

/-- C9 witness: the teardown property on a concrete one-registration state. -/
theorem C9_witness :
    Inv (runOps (initState 0) [Op.del ("click".data) (".btn".data) 5]) ∧
    ((∀ e sel : Str, ':' ∉ e → keyEventType (keyStr e sel) = e) ∧
     (∀ p ∈ (runOps (initState 0) [Op.del ("click".data) (".btn".data) 5]).delegatedEvents,
        (keyEventType p.1, p.2) ∈
            (runOps (initState 0) [Op.del ("click".data) (".btn".data) 5]).attached ∧
          (keyEventType p.1, p.2) ∉
            (undelegateAll
              (runOps (initState 0) [Op.del ("click".data) (".btn".data) 5])).attached)) :=
  have hinv : Inv (runOps (initState 0) [Op.del ("click".data) (".btn".data) 5]) :=
    inv_runOps _ _ (inv_initState 0) (by decide)
  ⟨hinv, C9_teardown_detaches_by_recovered_type _ hinv⟩

/-- C10: for events whose origin node is an element, the object-mixin
implementation's dispatch closure and the function-based implementation's
dispatch closure are equivalent — the mixin closure returns normally and
invokes the logical handler under exactly the same condition and with the
same matched element (and both bind the owning component as context). -/
theorem C10_mixin_refines_fn_on_elements
    (rootId : Nat) (msel : Node → Bool) (n : Node) (rest : List Node)
    (helem : n.kind = NodeKind.element) :
    runListenerMix rootId msel (some (n :: rest)) =
      MixResult.ok (runListenerFn rootId msel (some (n :: rest))) := by
  cases hcf : closestFrom msel (n :: rest) with
  | none => simp [runListenerMix, runListenerFn, toElementChain, helem, hcf]
  | some tc =>
    cases tc with
    | nil => simp [runListenerMix, runListenerFn, toElementChain, helem, hcf]
    | cons t ts =>
      cases hc : containsRoot rootId (t :: ts) <;>
        simp [runListenerMix, runListenerFn, toElementChain, helem, hcf, hc]

/-- C10 witness: equivalence of the two dispatch closures at a concrete
element-origin event. -/
theorem C10_witness :
    ((Node.mk 1 NodeKind.element).kind = NodeKind.element) ∧
    runListenerMix 0 (fun nd => nd.id == 1)
        (some [⟨1, NodeKind.element⟩, ⟨0, NodeKind.element⟩]) =
      MixResult.ok (runListenerFn 0 (fun nd => nd.id == 1)
        (some [⟨1, NodeKind.element⟩, ⟨0, NodeKind.element⟩])) :=
  ⟨by decide,
    C10_mixin_refines_fn_on_elements 0 (fun nd => nd.id == 1) ⟨1, NodeKind.element⟩
      [⟨0, NodeKind.element⟩] (by decide)⟩

end SD
